import Mathlib

/-!
Verification of the Haru drawdown/extrema scripts.

This file gives a shallow embedding of the numeric core of the repository's
four Python scripts and proves the specified properties about it.

Prices are modelled as rationals (`ℚ`); the Python value `float('inf')`,
which `scripts/main.py` uses as the "unset ATL" sentinel, is modelled as
`⊤ : WithTop ℚ`.  Timestamps are integers (milliseconds or seconds, as in
the source).  Fallible steps return `Option`.
-/

namespace Haru

/-- A parsed KuCoin candle: `[timestamp, open, close, high, low, ...]`
(`scripts/main.py` lines 137-146). -/
structure Kline where
  ts : ℤ
  openP : ℚ
  close : ℚ
  high : ℚ
  low : ℚ
deriving DecidableEq

/-- One registry entry, as read by `scripts/main.py` lines 116-120.
A missing `ath_value` key reads as `0.0` (line 117) and a missing
`atl_value` key reads as `float('inf')` (line 119), so `athValue` is stored
defaulted and `atlValue` lives in `WithTop ℚ` with `⊤` standing for the
absent/infinite sentinel. -/
structure AssetInfo where
  athValue : ℚ
  athDateMs : Option ℤ
  atlValue : WithTop ℚ
  atlDateMs : Option ℤ
  source : String
deriving DecidableEq

/-- `calculate_drawdown_percentage` (`scripts/main.py` lines 77-80). -/
def calculate_drawdown_percentage (current_price ath_value : ℚ) : ℚ :=
  if ath_value = 0 then 0 else (ath_value - current_price) / ath_value * 100

/-- Computable floor of a rational (used to model Python integer-day
truncation); proven below to agree with `Int.floor`. -/
def ratFloor (q : ℚ) : ℤ := q.num / (q.den : ℤ)

theorem ratFloor_eq_floor (q : ℚ) : ratFloor q = ⌊q⌋ := Rat.floor_def.symm

/-- Python's built-in `round` on a rational: round half to even. -/
def pyRound (q : ℚ) : ℤ :=
  if q - (ratFloor q : ℚ) < 1 / 2 then ratFloor q
  else if 1 / 2 < q - (ratFloor q : ℚ) then ratFloor q + 1
  else if ratFloor q % 2 = 0 then ratFloor q else ratFloor q + 1

theorem pyRound_eq (q : ℚ) :
    pyRound q =
      if q - (⌊q⌋ : ℚ) < 1 / 2 then ⌊q⌋
      else if 1 / 2 < q - (⌊q⌋ : ℚ) then ⌊q⌋ + 1
      else if ⌊q⌋ % 2 = 0 then ⌊q⌋ else ⌊q⌋ + 1 := by
  rw [pyRound, ratFloor_eq_floor]

/-- Python's `round(x, 2)` on a rational. -/
def round2 (q : ℚ) : ℚ := (pyRound (q * 100) : ℚ) / 100

/-- `get_days_ago` (`scripts/main.py` lines 82-88): `None`/`0` input is
falsy and yields `None`; otherwise `timedelta.days`, i.e. the floor of the
signed elapsed seconds divided by 86400.  `nowS` is the current time in
seconds. -/
def get_days_ago (nowS : ℚ) (target_timestamp_ms : Option ℤ) : Option ℤ :=
  match target_timestamp_ms with
  | none => none
  | some ms =>
    if ms = 0 then none
    else some (ratFloor ((nowS - (ms : ℚ) / 1000) / 86400))

/-- `get_days_difference` (`kucoin_r2_uploader.py` lines 24-39, likewise
`crypto_drawdown_uploader.py` lines 33-46): absolute elapsed seconds
divided by 86400, rounded to the nearest day with Python `round`.  The two
datetimes are given in seconds. -/
def get_days_difference (dt1S dt2S : ℚ) : ℤ := pyRound (|dt2S - dt1S| / 86400)

/-- `get_days_difference` (`scripts/crypto_drawdown_uploader.py` lines
40-76): `abs((dt2 - dt1).days)`, i.e. absolute value of the floored signed
day difference. -/
def get_days_difference_absdays (dt1S dt2S : ℚ) : ℤ :=
  |ratFloor ((dt2S - dt1S) / 86400)|

/-- Window maximum of the candle highs, as computed by the loop in
`scripts/main.py` lines 131, 149-150: accumulator starts at `0.0` and is
replaced on a strictly greater high. -/
def windowMax (ks : List Kline) : ℚ :=
  ks.foldl (fun acc k => if acc < k.high then k.high else acc) 0

/-- Window minimum of the candle lows, as computed by the loop in
`scripts/main.py` lines 132, 151-152: accumulator starts at `float('inf')`
and is replaced on a strictly smaller low. -/
def windowMin (ks : List Kline) : WithTop ℚ :=
  ks.foldl (fun acc k => if (k.low : WithTop ℚ) < acc then (k.low : WithTop ℚ) else acc) ⊤

/-- The extrema reconciliation of `scripts/main.py` lines 163-180: step 3
updates the ATH when the window maximum strictly exceeds the stored value,
stamping the fetch-time instant `nowMs`; step 4 updates the ATL when the
window minimum is strictly positive and either strictly below the stored
ATL or the stored ATL is the `inf` sentinel. -/
def reconcile (info : AssetInfo) (winMax : ℚ) (winMin : WithTop ℚ) (nowMs : ℤ) : AssetInfo :=
  let i1 :=
    if info.athValue < winMax then
      { info with athValue := winMax, athDateMs := some nowMs, source := "kucoin_updated_ath" }
    else info
  if 0 < winMin ∧ (winMin < i1.atlValue ∨ i1.atlValue = ⊤) then
    { i1 with atlValue := winMin, atlDateMs := some nowMs, source := "kucoin_updated_atl" }
  else i1

/-- The two source strings written by the reconciler; both mark the record
as machine-reconciled (as opposed to e.g. `"manual_initial"`). -/
def isReconciled (s : String) : Bool :=
  s == "kucoin_updated_ath" || s == "kucoin_updated_atl"

/-- Iterated reconciliation across successive runs, each run contributing a
fetched candle batch and its fetch-time instant. -/
def reconcileRuns (info : AssetInfo) (runs : List (List Kline × ℤ)) : AssetInfo :=
  runs.foldl (fun i r => reconcile i (windowMax r.1) (windowMin r.1) r.2) info

/-- One chart point of `scripts/main.py` lines 158-161: the candle's
timestamp (rendered as a date string in the source) and the drawdown of its
close against the ATH baseline in effect, rounded to 2 decimals. -/
structure ChartPoint where
  ts : ℤ
  value : ℚ
deriving DecidableEq

/-- The chart series built by `scripts/main.py` lines 134-161: the fetched
list is reversed (line 135, KuCoin returns newest first) and each candle is
mapped to a drawdown point against `athBase`.  No sorting is performed. -/
def mainChartPoints (ks : List Kline) (athBase : ℚ) : List ChartPoint :=
  ks.reverse.map fun k => ⟨k.ts, round2 (calculate_drawdown_percentage k.close athBase)⟩

/-- The per-asset results of one iteration of the `scripts/main.py` loop
that the verified claims talk about. -/
structure AssetRunResult where
  chart : List ChartPoint
  newInfo : AssetInfo
  current_price : ℚ
  drawdown_percentage_current : ℚ
deriving DecidableEq

/-- One iteration of the per-asset loop of `scripts/main.py` lines 113-207:
empty candle data means the asset is skipped (`continue`, line 128);
otherwise the chart is built against the old persisted ATH (lines 137-161),
the extrema are reconciled (lines 163-180), the current price is the close
of the newest candle (line 186, the last element after the reverse), and
the headline drawdown is computed against the possibly-updated ATH and
rounded for output (lines 189, 200). -/
def processAsset (info : AssetInfo) (ks : List Kline) (nowMs : ℤ) : Option AssetRunResult :=
  match ks with
  | [] => none
  | k0 :: _ =>
    let newInfo := reconcile info (windowMax ks.reverse) (windowMin ks.reverse) nowMs
    some
      { chart := mainChartPoints ks info.athValue
        newInfo := newInfo
        current_price := k0.close
        drawdown_percentage_current :=
          round2 (calculate_drawdown_percentage k0.close newInfo.athValue) }

/-- Batch input for one registry entry: the persisted info, the fetched
candles (`[]` models a failed or empty fetch, `scripts/main.py` lines
72-74, 126-128) and the outcome the per-asset R2 upload would have. -/
structure BatchEntry where
  symbol : String
  info : AssetInfo
  klines : List Kline
  publishOk : Bool
deriving DecidableEq

/-- Terminal state of one asset in a batch run. -/
inductive Outcome
  | published
  | skipped
  | failedPublish
deriving DecidableEq

/-- The per-asset loop of `scripts/main.py` `main` (lines 113-210) plus the
final registry upload (line 214).  Returns the outcomes of the assets
actually reached in order, whether the final registry upload was reached,
and the final in-memory registry.  An empty fetch skips the asset and
continues; a failed per-asset upload raises out of `upload_json_to_r2`
(line 55) with no handler in `main`, aborting the loop before later assets
and before the final registry upload.  The registry entry is updated in
place (line 183) before the per-asset upload is attempted (line 207). -/
def runBatchAux (nowMs : ℤ) :
    List BatchEntry → List (String × Outcome) × Bool × List (String × AssetInfo)
  | [] => ([], true, [])
  | e :: rest =>
    match processAsset e.info e.klines nowMs with
    | none =>
      ((e.symbol, Outcome.skipped) :: (runBatchAux nowMs rest).1,
        (runBatchAux nowMs rest).2.1,
        (e.symbol, e.info) :: (runBatchAux nowMs rest).2.2)
    | some r =>
      if e.publishOk then
        ((e.symbol, Outcome.published) :: (runBatchAux nowMs rest).1,
          (runBatchAux nowMs rest).2.1,
          (e.symbol, r.newInfo) :: (runBatchAux nowMs rest).2.2)
      else
        ([(e.symbol, Outcome.failedPublish)], false,
          (e.symbol, r.newInfo) :: rest.map fun x => (x.symbol, x.info))

/-- `main` of `scripts/main.py`: an empty registry returns early (lines
96-108) publishing nothing; otherwise the batch loop runs. -/
def runBatch (nowMs : ℤ) (entries : List BatchEntry) :
    List (String × Outcome) × Bool × List (String × AssetInfo) :=
  if entries = [] then ([], false, []) else runBatchAux nowMs entries

/-- A raw chart input point of the two uploader scripts: timestamp in
milliseconds and a price. -/
structure PricePoint where
  ts : ℤ
  price : ℚ
deriving DecidableEq

/-- The chart series builder of `crypto_drawdown_uploader.py` (scripts
variant lines 282-284, root variant lines 203-206) and
`kucoin_r2_uploader.py` (lines 216-220): the live spot price is appended as
a trailing point and the whole list is stably sorted by timestamp
(`historical_prices.sort(key=lambda x: x["timestamp"])`). -/
def buildChartSeries (hist : List PricePoint) (nowMs : ℤ) (spot : ℚ) : List PricePoint :=
  (hist ++ [({ ts := nowMs, price := spot } : PricePoint)]).mergeSort fun a b =>
    decide (a.ts ≤ b.ts)

/-! ### Reconciler field lemmas -/

theorem reconcile_athValue (info : AssetInfo) (winMax : ℚ) (winMin : WithTop ℚ) (nowMs : ℤ) :
    (reconcile info winMax winMin nowMs).athValue =
      if info.athValue < winMax then winMax else info.athValue := by
  simp only [reconcile]
  split_ifs <;> rfl

theorem reconcile_athDateMs (info : AssetInfo) (winMax : ℚ) (winMin : WithTop ℚ) (nowMs : ℤ) :
    (reconcile info winMax winMin nowMs).athDateMs =
      if info.athValue < winMax then some nowMs else info.athDateMs := by
  simp only [reconcile]
  split_ifs <;> rfl

theorem reconcile_atlValue (info : AssetInfo) (winMax : ℚ) (winMin : WithTop ℚ) (nowMs : ℤ) :
    (reconcile info winMax winMin nowMs).atlValue =
      if 0 < winMin ∧ (winMin < info.atlValue ∨ info.atlValue = ⊤) then winMin
      else info.atlValue := by
  simp only [reconcile]
  split_ifs <;> simp_all

theorem reconcile_atlDateMs (info : AssetInfo) (winMax : ℚ) (winMin : WithTop ℚ) (nowMs : ℤ) :
    (reconcile info winMax winMin nowMs).atlDateMs =
      if 0 < winMin ∧ (winMin < info.atlValue ∨ info.atlValue = ⊤) then some nowMs
      else info.atlDateMs := by
  simp only [reconcile]
  split_ifs <;> simp_all

theorem reconcile_source (info : AssetInfo) (winMax : ℚ) (winMin : WithTop ℚ) (nowMs : ℤ) :
    (reconcile info winMax winMin nowMs).source =
      if 0 < winMin ∧ (winMin < info.atlValue ∨ info.atlValue = ⊤) then "kucoin_updated_atl"
      else if info.athValue < winMax then "kucoin_updated_ath"
      else info.source := by
  simp only [reconcile]
  split_ifs <;> simp_all

theorem reconcile_ath_mono (info : AssetInfo) (winMax : ℚ) (winMin : WithTop ℚ) (nowMs : ℤ) :
    info.athValue ≤ (reconcile info winMax winMin nowMs).athValue := by
  rw [reconcile_athValue]
  split_ifs with h
  · exact le_of_lt h
  · exact le_rfl

theorem reconcile_atl_anti (info : AssetInfo) (winMax : ℚ) (winMin : WithTop ℚ) (nowMs : ℤ) :
    (reconcile info winMax winMin nowMs).atlValue ≤ info.atlValue := by
  rw [reconcile_atlValue]
  split_ifs with h
  · rcases h.2 with h2 | h2
    · exact le_of_lt h2
    · exact h2 ▸ le_top
  · exact le_rfl

theorem reconcileRuns_ath_mono (info : AssetInfo) (runs : List (List Kline × ℤ)) :
    info.athValue ≤ (reconcileRuns info runs).athValue := by
  induction runs generalizing info with
  | nil => exact le_rfl
  | cons r rs ih =>
    exact le_trans (reconcile_ath_mono info (windowMax r.1) (windowMin r.1) r.2) (ih _)

theorem reconcileRuns_atl_anti (info : AssetInfo) (runs : List (List Kline × ℤ)) :
    (reconcileRuns info runs).atlValue ≤ info.atlValue := by
  induction runs generalizing info with
  | nil => exact le_rfl
  | cons r rs ih =>
    exact le_trans (ih _) (reconcile_atl_anti info (windowMax r.1) (windowMin r.1) r.2)

/-! ### Claim theorems -/

/-- C1: for every persisted baseline and every fetched candle batch, the
reconciler output satisfies output ATH ≥ input ATH and output ATL ≤ input
ATL, and across any sequence of successive reconciliations the recorded ATH
never decreases and the recorded ATL never increases. -/
theorem extrema_baseline_monotone (info : AssetInfo) (ks : List Kline) (nowMs : ℤ)
    (runs : List (List Kline × ℤ)) :
    info.athValue ≤ (reconcile info (windowMax ks) (windowMin ks) nowMs).athValue ∧
    (reconcile info (windowMax ks) (windowMin ks) nowMs).atlValue ≤ info.atlValue ∧
    info.athValue ≤ (reconcileRuns info runs).athValue ∧
    (reconcileRuns info runs).atlValue ≤ info.atlValue :=
  ⟨reconcile_ath_mono info (windowMax ks) (windowMin ks) nowMs,
    reconcile_atl_anti info (windowMax ks) (windowMin ks) nowMs,
    reconcileRuns_ath_mono info runs,
    reconcileRuns_atl_anti info runs⟩

/-- C2: `calculate_drawdown_percentage` returns `0` when the ATH is `0` and
`(ath - price) / ath * 100` otherwise; hence drawdown at the ATH itself is
`0`, drawdown at half the ATH is `50` (for a nonzero ATH), a zero ATH never
divides, the result is at most `100` for a nonnegative price and positive
ATH, and a price above the ATH yields the unclamped negative formula
value. -/
theorem drawdown_calculator_spec (price ath : ℚ) :
    (ath = 0 → calculate_drawdown_percentage price ath = 0) ∧
    (ath ≠ 0 → calculate_drawdown_percentage price ath = (ath - price) / ath * 100) ∧
    calculate_drawdown_percentage ath ath = 0 ∧
    (ath ≠ 0 → calculate_drawdown_percentage (ath / 2) ath = 50) ∧
    calculate_drawdown_percentage price 0 = 0 ∧
    (0 ≤ price → 0 < ath → calculate_drawdown_percentage price ath ≤ 100) ∧
    (0 < ath → ath < price →
      calculate_drawdown_percentage price ath < 0 ∧
      calculate_drawdown_percentage price ath = (ath - price) / ath * 100) := by
  refine ⟨?_, ?_, ?_, ?_, ?_, ?_, ?_⟩
  · intro h
    simp [calculate_drawdown_percentage, h]
  · intro h
    simp [calculate_drawdown_percentage, h]
  · by_cases h : ath = 0 <;> simp [calculate_drawdown_percentage, h]
  · intro h
    rw [calculate_drawdown_percentage, if_neg h]
    field_simp
    ring
  · simp [calculate_drawdown_percentage]
  · intro hp hath
    rw [calculate_drawdown_percentage, if_neg (ne_of_gt hath)]
    have h1 : (ath - price) / ath ≤ 1 := by
      rw [div_le_one hath]
      linarith
    nlinarith
  · intro h1 h2
    have hne : ath ≠ 0 := ne_of_gt h1
    have hdiv : (ath - price) / ath < 0 := div_neg_of_neg_of_pos (by linarith) h1
    refine ⟨?_, by rw [calculate_drawdown_percentage, if_neg hne]⟩
    rw [calculate_drawdown_percentage, if_neg hne]
    nlinarith

/-- Witness for C2 at concrete inputs. -/
theorem drawdown_calculator_spec_witness :
    calculate_drawdown_percentage 1 2 = (2 - 1) / 2 * 100 ∧
    calculate_drawdown_percentage 1 2 = 50 ∧
    calculate_drawdown_percentage 1 2 ≤ 100 ∧
    calculate_drawdown_percentage 3 2 < 0 ∧
    calculate_drawdown_percentage 5 0 = 0 := by
  have h := drawdown_calculator_spec 1 2
  have h3 := drawdown_calculator_spec 3 2
  have h5 := drawdown_calculator_spec 5 0
  have h4 := h.2.2.2.1 (by norm_num)
  norm_num at h4
  exact ⟨h.2.1 (by norm_num), h4, h.2.2.2.2.2.1 (by norm_num) (by norm_num),
    (h3.2.2.2.2.2.2 (by norm_num) (by norm_num)).1, h5.2.2.2.2.1⟩

/-- C3: whenever the window maximum strictly exceeds the persisted ATH
(a missing persisted ATH reads as the `0.0` default, `scripts/main.py`
line 117), the reconciler sets the ATH to the window maximum, stamps the
ATH date with the fetch-time instant `nowMs` (not any candle timestamp),
and leaves the record marked with a machine-reconciled source. -/
theorem ath_reconcile_update (info : AssetInfo) (winMax : ℚ) (winMin : WithTop ℚ) (nowMs : ℤ)
    (h : info.athValue < winMax) :
    (reconcile info winMax winMin nowMs).athValue = winMax ∧
    (reconcile info winMax winMin nowMs).athDateMs = some nowMs ∧
    isReconciled (reconcile info winMax winMin nowMs).source = true := by
  refine ⟨by rw [reconcile_athValue, if_pos h], by rw [reconcile_athDateMs, if_pos h], ?_⟩
  rw [reconcile_source]
  split_ifs <;> simp_all [isReconciled]

def c3klines : List Kline :=
  [⟨1, 1, 1, 80, 70⟩, ⟨2, 1, 1, 95, 70⟩, ⟨3, 1, 1, 110, 70⟩, ⟨4, 1, 1, 90, 70⟩]

def c3info : AssetInfo := ⟨100, some 1620691200000, ((2 : ℚ) : WithTop ℚ), some 1, "manual_initial"⟩

/-- Witness for C3: the spec scenario — persisted ATH 100, window highs
`[80, 95, 110, 90]` — reconciles to ATH 110 with the run instant as date
and a reconciled source. -/
theorem ath_reconcile_update_witness :
    windowMax c3klines = 110 ∧
    (reconcile c3info (windowMax c3klines) (windowMin c3klines) 1700000000000).athValue = 110 ∧
    (reconcile c3info (windowMax c3klines) (windowMin c3klines) 1700000000000).athDateMs =
      some 1700000000000 ∧
    isReconciled
      (reconcile c3info (windowMax c3klines) (windowMin c3klines) 1700000000000).source = true := by
  have hmax : windowMax c3klines = 110 := by decide
  have h := ath_reconcile_update c3info (windowMax c3klines) (windowMin c3klines) 1700000000000
    (by rw [hmax]; decide)
  exact ⟨hmax, hmax ▸ h.1, h.2.1, h.2.2⟩

def c4info : AssetInfo := ⟨10, some 1, ((5 : ℚ) : WithTop ℚ), some 2, "manual_initial"⟩

def c4klines : List Kline := [⟨100, 1, 1, 4, 0⟩]

/-- C4 counterexample: a window whose minimum low is `0` is strictly below
the persisted ATL `5`, yet the reconciler leaves the ATL untouched (the
`lowest > 0` guard of `scripts/main.py` line 174), so the update does not
happen exactly when the window minimum is strictly lower than the persisted
ATL. -/
theorem atl_zero_low_ignored :
    windowMin c4klines = ((0 : ℚ) : WithTop ℚ) ∧
    windowMin c4klines < c4info.atlValue ∧
    (reconcile c4info (windowMax c4klines) (windowMin c4klines) 999).atlValue = c4info.atlValue ∧
    (reconcile c4info (windowMax c4klines) (windowMin c4klines) 999).atlValue ≠
      windowMin c4klines := by
  refine ⟨by decide, by decide, by decide, by decide⟩

/-- C4 amended: the persisted ATL is updated to the window minimum exactly
when the window minimum is strictly positive and either strictly lower than
the persisted ATL or the persisted ATL is the `+∞` absence sentinel; that
sentinel is distinguishable from a legitimate zero price, but a true zero
(or negative) window low never updates the ATL. -/
theorem atl_update_characterization (info : AssetInfo) (ks : List Kline) (nowMs : ℤ) :
    (⊤ : WithTop ℚ) ≠ ((0 : ℚ) : WithTop ℚ) ∧
    (reconcile info (windowMax ks) (windowMin ks) nowMs).atlValue =
      (if 0 < windowMin ks ∧ (windowMin ks < info.atlValue ∨ info.atlValue = ⊤)
        then windowMin ks else info.atlValue) ∧
    (reconcile info (windowMax ks) (windowMin ks) nowMs).atlDateMs =
      (if 0 < windowMin ks ∧ (windowMin ks < info.atlValue ∨ info.atlValue = ⊤)
        then some nowMs else info.atlDateMs) :=
  ⟨by simp, reconcile_atlValue info (windowMax ks) (windowMin ks) nowMs,
    reconcile_atlDateMs info (windowMax ks) (windowMin ks) nowMs⟩

/-- C10: whenever the window minimum low is at most zero, the persisted ATL
value and ATL timestamp are left completely unchanged, even when that
minimum is strictly below the persisted ATL. -/
theorem atl_frame_on_nonpositive_min (info : AssetInfo) (ks : List Kline) (nowMs : ℤ)
    (h : windowMin ks ≤ 0) :
    (reconcile info (windowMax ks) (windowMin ks) nowMs).atlValue = info.atlValue ∧
    (reconcile info (windowMax ks) (windowMin ks) nowMs).atlDateMs = info.atlDateMs := by
  have hc : ¬(0 < windowMin ks ∧ (windowMin ks < info.atlValue ∨ info.atlValue = ⊤)) :=
    fun hc => absurd hc.1 (not_lt.mpr h)
  exact ⟨by rw [reconcile_atlValue, if_neg hc], by rw [reconcile_atlDateMs, if_neg hc]⟩

def c10info : AssetInfo := ⟨10, some 3, ((5 : ℚ) : WithTop ℚ), some 4, "manual_initial"⟩

def c10klines : List Kline := [⟨100, 1, 1, 4, 0⟩]

/-- Witness for C10: a window containing a true zero low, strictly below
the persisted ATL 5, leaves the ATL baseline untouched. -/
theorem atl_frame_on_nonpositive_min_witness :
    windowMin c10klines ≤ 0 ∧
    windowMin c10klines < c10info.atlValue ∧
    (reconcile c10info (windowMax c10klines) (windowMin c10klines) 99).atlValue =
      c10info.atlValue ∧
    (reconcile c10info (windowMax c10klines) (windowMin c10klines) 99).atlDateMs =
      c10info.atlDateMs :=
  ⟨by decide, by decide,
    (atl_frame_on_nonpositive_min c10info c10klines 99 (by decide)).1,
    (atl_frame_on_nonpositive_min c10info c10klines 99 (by decide)).2⟩

theorem batch_isolation_aux (nowMs : ℤ) (entries : List BatchEntry)
    (hpub : ∀ e ∈ entries, e.publishOk = true) :
    (runBatchAux nowMs entries).2.1 = true ∧
    (runBatchAux nowMs entries).1 =
      entries.map fun e =>
        (e.symbol, if e.klines = [] then Outcome.skipped else Outcome.published) := by
  induction entries with
  | nil => exact ⟨rfl, rfl⟩
  | cons e rest ih =>
    have he : e.publishOk = true := hpub e (by simp)
    have ih' := ih fun x hx => hpub x (by simp [hx])
    cases hk : e.klines with
    | nil => simp [runBatchAux, processAsset, hk, ih'.1, ih'.2]
    | cons k0 ks => simp [runBatchAux, processAsset, hk, he, ih'.1, ih'.2]

/-- C5 amended: with a nonempty registry, a failed fetch (empty candle
response) only skips that asset and the orchestrator proceeds; when every
attempted per-asset publish succeeds, every asset ends `published` or
`skipped` (skipped exactly on empty fetches) and the registry is re-published
exactly once at the end.  However, a failed per-asset publish raises out of
the loop: the batch aborts, later assets are not processed, and the final
registry publish is skipped. -/
theorem batch_fetch_isolation (nowMs : ℤ) (entries : List BatchEntry)
    (hne : entries ≠ [])
    (hpub : ∀ e ∈ entries, e.publishOk = true) :
    ((runBatch nowMs entries).2.1 = true ∧
      (runBatch nowMs entries).1 =
        entries.map fun e =>
          (e.symbol, if e.klines = [] then Outcome.skipped else Outcome.published)) ∧
    (∀ (e : BatchEntry) (rest : List BatchEntry) (r : AssetRunResult),
      processAsset e.info e.klines nowMs = some r → e.publishOk = false →
      (runBatch nowMs (e :: rest)).2.1 = false ∧
      (runBatch nowMs (e :: rest)).1 = [(e.symbol, Outcome.failedPublish)]) := by
  constructor
  · rw [runBatch, if_neg hne]
    exact batch_isolation_aux nowMs entries hpub
  · intro e rest r hr hpf
    rw [runBatch, if_neg (by simp)]
    constructor <;> simp [runBatchAux, hr, hpf]

def c5info : AssetInfo := ⟨100, some 1, ((2 : ℚ) : WithTop ℚ), some 1, "manual_initial"⟩

def c5good : BatchEntry := ⟨"BTC", c5info, [⟨1, 1, 50, 60, 40⟩], true⟩

def c5skip : BatchEntry := ⟨"ETH", c5info, [], true⟩

/-- Witness for C5: one asset's fetch fails while the other succeeds — the
failing asset is skipped, the other is published, and the registry is still
re-published at the end. -/
theorem batch_fetch_isolation_witness :
    (runBatch 7 [c5good, c5skip]).2.1 = true ∧
    (runBatch 7 [c5good, c5skip]).1 =
      [("BTC", Outcome.published), ("ETH", Outcome.skipped)] := by
  have h := batch_fetch_isolation 7 [c5good, c5skip] (by simp)
    (by intro e he; fin_cases he <;> rfl)
  refine ⟨h.1.1, ?_⟩
  rw [h.1.2]
  decide

def c5pubfail : BatchEntry := ⟨"AAA", c5info, [⟨1, 1, 50, 60, 40⟩], false⟩

def c5second : BatchEntry := ⟨"BBB", c5info, [⟨1, 1, 50, 60, 40⟩], true⟩

/-- C5 counterexample: the first asset's per-asset publish fails, the batch
aborts — the second asset never reaches a terminal state and the final
registry publish does not happen, refuting both "a failed per-asset publish
does not block subsequent assets" and "the registry is published exactly
once at the end". -/
theorem batch_publish_failure_aborts :
    (runBatch 7 [c5pubfail, c5second]).1 = [("AAA", Outcome.failedPublish)] ∧
    (runBatch 7 [c5pubfail, c5second]).2.1 = false := by
  constructor <;> decide

theorem buildChartSeries_sorted_ts (hist : List PricePoint) (nowMs : ℤ) (spot : ℚ) :
    List.Sorted (· ≤ ·) ((buildChartSeries hist nowMs spot).map PricePoint.ts) := by
  have h := @List.sorted_mergeSort PricePoint (fun a b : PricePoint => decide (a.ts ≤ b.ts))
    (fun a b c hab hbc => by
      simp only [decide_eq_true_eq] at *
      omega)
    (fun a b => by
      simp only [Bool.or_eq_true, decide_eq_true_eq]
      omega)
    (hist ++ [({ ts := nowMs, price := spot } : PricePoint)])
  rw [List.Sorted, List.pairwise_map]
  simpa using h

/-- C6 amended: the chart builder of the two uploader scripts — which
appends the live spot point and then sorts by timestamp — produces a series
non-decreasing in the underlying timestamp for any input ordering; the
builder of `scripts/main.py` merely reverses its input, so its series is
only guaranteed non-decreasing when the input is newest-first
(non-increasing in timestamp), not for arbitrary orderings. -/
theorem chart_series_sorted (hist : List PricePoint) (nowMs : ℤ) (spot : ℚ)
    (ks : List Kline) (athBase : ℚ)
    (hdesc : List.Sorted (fun a b : Kline => b.ts ≤ a.ts) ks) :
    List.Sorted (· ≤ ·) ((buildChartSeries hist nowMs spot).map PricePoint.ts) ∧
    List.Sorted (· ≤ ·) ((mainChartPoints ks athBase).map ChartPoint.ts) := by
  refine ⟨buildChartSeries_sorted_ts hist nowMs spot, ?_⟩
  have hmap : (mainChartPoints ks athBase).map ChartPoint.ts = ks.reverse.map Kline.ts := by
    simp [mainChartPoints, Function.comp]
  rw [hmap, List.Sorted, List.pairwise_map, List.pairwise_reverse]
  exact hdesc

def c6hist : List PricePoint := [⟨5, 1⟩, ⟨1, 2⟩]

def c6desc : List Kline := [⟨3, 1, 1, 1, 1⟩, ⟨1, 1, 1, 1, 1⟩]

/-- Witness for C6 at concrete inputs: an unsorted price history plus spot
point, and a newest-first candle list. -/
theorem chart_series_sorted_witness :
    List.Sorted (· ≤ ·) ((buildChartSeries c6hist 3 7).map PricePoint.ts) ∧
    List.Sorted (· ≤ ·) ((mainChartPoints c6desc 100).map ChartPoint.ts) :=
  chart_series_sorted c6hist 3 7 c6desc 100 (by decide)

def c6klines : List Kline := [⟨1, 1, 1, 1, 1⟩, ⟨3, 1, 1, 1, 1⟩, ⟨2, 1, 1, 1, 1⟩]

/-- C6 counterexample: the `scripts/main.py` chart builder on input with
timestamps `[1, 3, 2]` yields the timestamp sequence `[2, 3, 1]`, which is
not non-decreasing — the claim fails for arbitrary input orderings. -/
theorem main_chart_unsorted :
    (mainChartPoints c6klines 100).map ChartPoint.ts = [2, 3, 1] ∧
    ¬List.Sorted (· ≤ ·) ((mainChartPoints c6klines 100).map ChartPoint.ts) := by
  constructor
  · rfl
  · intro hs
    rw [show (mainChartPoints c6klines 100).map ChartPoint.ts = [2, 3, 1] from rfl] at hs
    have h31 : (3 : ℤ) ≤ 1 := (List.pairwise_cons.mp
      (List.pairwise_cons.mp hs).2).1 1 (by simp)
    omega

/-- C7 amended: `get_days_ago` of `scripts/main.py` returns the floor of
the elapsed duration `|now − athTimestamp|` in whole days whenever the ATH
timestamp does not lie in the future; the `get_days_difference` variants of
the uploader scripts instead round to the nearest day or take the absolute
value of the floored signed difference. -/
theorem days_ago_floor (nowS : ℚ) (ms : ℤ) (hms : ms ≠ 0)
    (hpast : (ms : ℚ) / 1000 ≤ nowS) :
    get_days_ago nowS (some ms) = some ⌊|nowS - (ms : ℚ) / 1000| / 86400⌋ := by
  simp only [get_days_ago]
  rw [if_neg hms, ratFloor_eq_floor, abs_of_nonneg (by linarith)]

/-- Witness for C7 at a concrete instant: target 1 s after epoch, now 100000
s after epoch, elapsed 99999 s, i.e. one whole day. -/
theorem days_ago_floor_witness :
    get_days_ago 100000 (some 1000) = some ⌊|(100000 : ℚ) - ((1000 : ℤ) : ℚ) / 1000| / 86400⌋ ∧
    get_days_ago 100000 (some 1000) = some 1 := by
  have h := days_ago_floor 100000 1000 (by norm_num) (by norm_num)
  refine ⟨h, ?_⟩
  rw [h]
  norm_num

/-- C7 counterexample: the `round`-based `get_days_difference` of
`kucoin_r2_uploader.py` at an elapsed duration of 151200 s (1.75 days)
returns 2, while the floor of the elapsed duration is 1 day — the snapshot
field is nearest-day rounded there, not floored. -/
theorem days_difference_rounds_to_nearest :
    get_days_difference 0 151200 = 2 ∧
    (⌊|(151200 : ℚ) - 0| / 86400⌋ : ℤ) = 1 ∧
    get_days_difference 0 151200 ≠ ⌊|(151200 : ℚ) - 0| / 86400⌋ := by
  have h1 : get_days_difference 0 151200 = 2 := by
    rw [get_days_difference, pyRound_eq]
    rw [show |(151200 : ℚ) - 0| = 151200 by norm_num [abs_of_nonneg]]
    norm_num
  have h2 : (⌊|(151200 : ℚ) - 0| / 86400⌋ : ℤ) = 1 := by
    rw [show |(151200 : ℚ) - 0| = 151200 by norm_num [abs_of_nonneg]]
    norm_num
  exact ⟨h1, h2, by rw [h1, h2]; decide⟩

/-! ### Bootstrap extremum scan (`scripts/crypto_drawdown_uploader.py` lines 156-176) -/

/-- One step of the ATH part of the bootstrap scan (lines 170-172): only a
strictly greater high replaces the running value and its date. -/
def athStep (p : ℚ × ℤ) (k : Kline) : ℚ × ℤ := if p.1 < k.high then (k.high, k.ts) else p

/-- One step of the ATL part of the bootstrap scan (lines 174-176): only a
strictly lower low replaces the running value and its date. -/
def atlStep (p : ℚ × ℤ) (k : Kline) : ℚ × ℤ := if k.low < p.1 then (k.low, k.ts) else p

/-- The one-shot bootstrap scan over chronologically forward candles: state
initialized from the first candle (lines 158-162), then every candle of the
list visited in order with strict comparisons (lines 166-176).  Returns
`((ath, athDate), (atl, atlDate))`. -/
def scanExtrema : List Kline → Option ((ℚ × ℤ) × (ℚ × ℤ))
  | [] => none
  | k0 :: ks =>
    some ((k0 :: ks).foldl athStep (k0.high, k0.ts), (k0 :: ks).foldl atlStep (k0.low, k0.ts))

def maxFrom (m : ℚ) (ks : List Kline) : ℚ := ks.foldl (fun a k => max a k.high) m

def minFrom (m : ℚ) (ks : List Kline) : ℚ := ks.foldl (fun a k => min a k.low) m

theorem maxFrom_cons (m : ℚ) (k : Kline) (t : List Kline) :
    maxFrom m (k :: t) = maxFrom (max m k.high) t := rfl

theorem minFrom_cons (m : ℚ) (k : Kline) (t : List Kline) :
    minFrom m (k :: t) = minFrom (min m k.low) t := rfl

theorem le_maxFrom (ks : List Kline) : ∀ m : ℚ, m ≤ maxFrom m ks := by
  induction ks with
  | nil => exact fun m => le_rfl
  | cons k t ih =>
    intro m
    rw [maxFrom_cons]
    exact le_trans (le_max_left m k.high) (ih (max m k.high))

theorem minFrom_le (ks : List Kline) : ∀ m : ℚ, minFrom m ks ≤ m := by
  induction ks with
  | nil => exact fun m => le_rfl
  | cons k t ih =>
    intro m
    rw [minFrom_cons]
    exact le_trans (ih (min m k.low)) (min_le_left m k.low)

theorem high_le_maxFrom (ks : List Kline) : ∀ m : ℚ, ∀ k ∈ ks, k.high ≤ maxFrom m ks := by
  induction ks with
  | nil => simp
  | cons k t ih =>
    intro m x hx
    rw [maxFrom_cons]
    rcases List.mem_cons.mp hx with rfl | hx
    · exact le_trans (le_max_right m x.high) (le_maxFrom t (max m x.high))
    · exact ih (max m k.high) x hx

theorem minFrom_le_low (ks : List Kline) : ∀ m : ℚ, ∀ k ∈ ks, minFrom m ks ≤ k.low := by
  induction ks with
  | nil => simp
  | cons k t ih =>
    intro m x hx
    rw [minFrom_cons]
    rcases List.mem_cons.mp hx with rfl | hx
    · exact le_trans (minFrom_le t (min m x.low)) (min_le_right m x.low)
    · exact ih (min m k.low) x hx

theorem athFold_fst (ks : List Kline) :
    ∀ (m : ℚ) (d : ℤ), (ks.foldl athStep (m, d)).1 = maxFrom m ks := by
  induction ks with
  | nil => exact fun m d => rfl
  | cons k t ih =>
    intro m d
    rw [List.foldl_cons, maxFrom_cons, athStep]
    by_cases h : m < k.high
    · rw [if_pos h, max_eq_right (le_of_lt h)]
      exact ih k.high k.ts
    · rw [if_neg h, max_eq_left (not_lt.mp h)]
      exact ih m d

theorem atlFold_fst (ks : List Kline) :
    ∀ (m : ℚ) (d : ℤ), (ks.foldl atlStep (m, d)).1 = minFrom m ks := by
  induction ks with
  | nil => exact fun m d => rfl
  | cons k t ih =>
    intro m d
    rw [List.foldl_cons, minFrom_cons, atlStep]
    by_cases h : k.low < m
    · rw [if_pos h, min_eq_right (le_of_lt h)]
      exact ih k.low k.ts
    · rw [if_neg h, min_eq_left (not_lt.mp h)]
      exact ih m d

/-- The date tracked by the ATH fold is attributed to the earliest candle
attaining the running maximum: if the maximum strictly improves on the
initial value, the recorded date is the timestamp of the first candle whose
high reaches the overall maximum; otherwise the initial date survives. -/
theorem athFold_date (ks : List Kline) :
    ∀ (m : ℚ) (d : ℤ),
      (m < maxFrom m ks →
        ∃ k1, ks.find? (fun k => decide (maxFrom m ks ≤ k.high)) = some k1 ∧
          k1.high = maxFrom m ks ∧ k1.ts = (ks.foldl athStep (m, d)).2) ∧
      (¬m < maxFrom m ks → (ks.foldl athStep (m, d)).2 = d) := by
  induction ks with
  | nil =>
    intro m d
    exact ⟨fun h => absurd h (lt_irrefl m), fun _ => rfl⟩
  | cons k t ih =>
    intro m d
    rw [List.foldl_cons, maxFrom_cons, athStep]
    by_cases h : m < k.high
    · rw [if_pos h, max_eq_right (le_of_lt h)]
      by_cases h2 : k.high < maxFrom k.high t
      · obtain ⟨k1, hfind, hh, hts⟩ := (ih k.high k.ts).1 h2
        constructor
        · intro _
          refine ⟨k1, ?_, hh, hts⟩
          rw [List.find?_cons_of_neg _ (by simpa using not_le.mpr h2)]
          exact hfind
        · intro hcon
          exact absurd (lt_trans h h2) hcon
      · have hM : maxFrom k.high t = k.high :=
          le_antisymm (not_lt.mp h2) (le_maxFrom t k.high)
        have hsnd := (ih k.high k.ts).2 h2
        constructor
        · intro _
          refine ⟨k, ?_, hM.symm, hsnd.symm⟩
          rw [List.find?_cons_of_pos _ (by simpa using hM.le)]
        · intro hcon
          exact absurd (lt_of_lt_of_le h hM.ge) hcon
    · rw [if_neg h, max_eq_left (not_lt.mp h)]
      constructor
      · intro hlt
        obtain ⟨k1, hfind, hh, hts⟩ := (ih m d).1 hlt
        refine ⟨k1, ?_, hh, hts⟩
        rw [List.find?_cons_of_neg _
          (by simpa using not_le.mpr (lt_of_le_of_lt (not_lt.mp h) hlt))]
        exact hfind
      · exact (ih m d).2

/-- Dual of `athFold_date` for the ATL fold. -/
theorem atlFold_date (ks : List Kline) :
    ∀ (m : ℚ) (d : ℤ),
      (minFrom m ks < m →
        ∃ k1, ks.find? (fun k => decide (k.low ≤ minFrom m ks)) = some k1 ∧
          k1.low = minFrom m ks ∧ k1.ts = (ks.foldl atlStep (m, d)).2) ∧
      (¬minFrom m ks < m → (ks.foldl atlStep (m, d)).2 = d) := by
  induction ks with
  | nil =>
    intro m d
    exact ⟨fun h => absurd h (lt_irrefl m), fun _ => rfl⟩
  | cons k t ih =>
    intro m d
    rw [List.foldl_cons, minFrom_cons, atlStep]
    by_cases h : k.low < m
    · rw [if_pos h, min_eq_right (le_of_lt h)]
      by_cases h2 : minFrom k.low t < k.low
      · obtain ⟨k1, hfind, hh, hts⟩ := (ih k.low k.ts).1 h2
        constructor
        · intro _
          refine ⟨k1, ?_, hh, hts⟩
          rw [List.find?_cons_of_neg _ (by simpa using not_le.mpr h2)]
          exact hfind
        · intro hcon
          exact absurd (lt_trans h2 h) hcon
      · have hM : minFrom k.low t = k.low :=
          le_antisymm (minFrom_le t k.low) (not_lt.mp h2)
        have hsnd := (ih k.low k.ts).2 h2
        constructor
        · intro _
          refine ⟨k, ?_, hM.symm, hsnd.symm⟩
          rw [List.find?_cons_of_pos _ (by simpa using hM.ge)]
        · intro hcon
          exact absurd (lt_of_le_of_lt hM.le h) hcon
    · rw [if_neg h, min_eq_left (not_lt.mp h)]
      constructor
      · intro hlt
        obtain ⟨k1, hfind, hh, hts⟩ := (ih m d).1 hlt
        refine ⟨k1, ?_, hh, hts⟩
        rw [List.find?_cons_of_neg _
          (by simpa using not_le.mpr (lt_of_lt_of_le hlt (not_lt.mp h)))]
        exact hfind
      · exact (ih m d).2

/-- C8: in the one-shot bootstrap scan over chronologically forward candle
history, the found ATH (resp. ATL) value bounds every candle, and its date
is attributed to the earliest candle attaining that extreme (the first
match of a forward `find?`): a later candle with an equal high or low never
overwrites the earlier date — only a strictly more extreme value moves
it. -/
theorem bootstrap_earliest_attribution (l : List Kline) (hl : l ≠ [])
    (A L : ℚ) (Ad Ld : ℤ)
    (hp : scanExtrema l = some ((A, Ad), (L, Ld))) :
    (∀ k ∈ l, k.high ≤ A) ∧ (∀ k ∈ l, L ≤ k.low) ∧
    (∃ ka, l.find? (fun k => decide (A ≤ k.high)) = some ka ∧ ka.high = A ∧ ka.ts = Ad) ∧
    (∃ kl, l.find? (fun k => decide (k.low ≤ L)) = some kl ∧ kl.low = L ∧ kl.ts = Ld) := by
  cases l with
  | nil => exact absurd rfl hl
  | cons k0 t =>
    have hp' : ((k0 :: t).foldl athStep (k0.high, k0.ts),
        (k0 :: t).foldl atlStep (k0.low, k0.ts)) = ((A, Ad), (L, Ld)) := by
      have h0 := hp
      simp only [scanExtrema, Option.some.injEq] at h0
      exact h0
    have hA : (k0 :: t).foldl athStep (k0.high, k0.ts) = (A, Ad) := congrArg Prod.fst hp'
    have hL : (k0 :: t).foldl atlStep (k0.low, k0.ts) = (L, Ld) := congrArg Prod.snd hp'
    have hAfst : ((k0 :: t).foldl athStep (k0.high, k0.ts)).1 = A := by rw [hA]
    have hAsnd : ((k0 :: t).foldl athStep (k0.high, k0.ts)).2 = Ad := by rw [hA]
    have hLfst : ((k0 :: t).foldl atlStep (k0.low, k0.ts)).1 = L := by rw [hL]
    have hLsnd : ((k0 :: t).foldl atlStep (k0.low, k0.ts)).2 = Ld := by rw [hL]
    have hAmax : A = maxFrom k0.high (k0 :: t) := by
      rw [← hAfst, athFold_fst]
    have hLmin : L = minFrom k0.low (k0 :: t) := by
      rw [← hLfst, atlFold_fst]
    refine ⟨?_, ?_, ?_, ?_⟩
    · intro k hk
      exact hAmax ▸ high_le_maxFrom (k0 :: t) k0.high k hk
    · intro k hk
      exact hLmin ▸ minFrom_le_low (k0 :: t) k0.low k hk
    · by_cases h : k0.high < maxFrom k0.high (k0 :: t)
      · obtain ⟨k1, hfind, hh, hts⟩ := (athFold_date (k0 :: t) k0.high k0.ts).1 h
        exact ⟨k1, by rw [hAmax]; exact hfind, by rw [hAmax]; exact hh,
          by rw [← hAsnd]; exact hts⟩
      · have hM : maxFrom k0.high (k0 :: t) = k0.high :=
          le_antisymm (not_lt.mp h) (le_maxFrom (k0 :: t) k0.high)
        have hsnd := (athFold_date (k0 :: t) k0.high k0.ts).2 h
        refine ⟨k0, ?_, by rw [hAmax, hM], by rw [← hAsnd, hsnd]⟩
        rw [List.find?_cons_of_pos _ (by simp [hAmax, hM])]
    · by_cases h : minFrom k0.low (k0 :: t) < k0.low
      · obtain ⟨k1, hfind, hh, hts⟩ := (atlFold_date (k0 :: t) k0.low k0.ts).1 h
        exact ⟨k1, by rw [hLmin]; exact hfind, by rw [hLmin]; exact hh,
          by rw [← hLsnd]; exact hts⟩
      · have hM : minFrom k0.low (k0 :: t) = k0.low :=
          le_antisymm (minFrom_le (k0 :: t) k0.low) (not_lt.mp h)
        have hsnd := (atlFold_date (k0 :: t) k0.low k0.ts).2 h
        refine ⟨k0, ?_, by rw [hLmin, hM], by rw [← hLsnd, hsnd]⟩
        rw [List.find?_cons_of_pos _ (by simp [hLmin, hM])]

def c8klines : List Kline :=
  [⟨1, 1, 1, 5, 3⟩, ⟨2, 1, 1, 9, 1⟩, ⟨3, 1, 1, 9, 1⟩, ⟨4, 1, 1, 7, 2⟩]

/-- Witness for C8: a history with a duplicated maximum high 9 and
duplicated minimum low 1 (timestamps 2 and 3) attributes both extreme dates
to the earlier candle (timestamp 2). -/
theorem bootstrap_earliest_attribution_witness :
    scanExtrema c8klines = some ((9, 2), (1, 2)) ∧
    ((∀ k ∈ c8klines, k.high ≤ 9) ∧ (∀ k ∈ c8klines, 1 ≤ k.low) ∧
      (∃ ka, c8klines.find? (fun k => decide ((9 : ℚ) ≤ k.high)) = some ka ∧
        ka.high = 9 ∧ ka.ts = 2) ∧
      (∃ kl, c8klines.find? (fun k => decide (k.low ≤ (1 : ℚ))) = some kl ∧
        kl.low = 1 ∧ kl.ts = 2)) := by
  have hp : scanExtrema c8klines = some ((9, 2), (1, 2)) := by decide
  exact ⟨hp, bootstrap_earliest_attribution c8klines (by decide) 9 1 2 2 hp⟩

/-- C9: within a single per-asset run of `scripts/main.py` in which the
window maximum exceeds the persisted ATH, every per-point drawdown in the
emitted chart is computed against the old persisted ATH (the chart is built
before reconciliation), while the headline current drawdown of the same
document is computed against the newly updated ATH — two different
denominators in one published document. -/
theorem stale_chart_fresh_headline (info : AssetInfo) (ks : List Kline) (nowMs : ℤ)
    (r : AssetRunResult) (hr : processAsset info ks nowMs = some r)
    (hath : info.athValue < windowMax ks.reverse) :
    r.chart = ks.reverse.map (fun k =>
      ({ ts := k.ts,
         value := round2 (calculate_drawdown_percentage k.close info.athValue) } : ChartPoint)) ∧
    r.newInfo.athValue = windowMax ks.reverse ∧
    r.drawdown_percentage_current =
      round2 (calculate_drawdown_percentage r.current_price (windowMax ks.reverse)) ∧
    info.athValue ≠ windowMax ks.reverse := by
  cases ks with
  | nil => simp [processAsset] at hr
  | cons k0 t =>
    have hAth :
        (reconcile info (windowMax (k0 :: t).reverse) (windowMin (k0 :: t).reverse)
          nowMs).athValue = windowMax (k0 :: t).reverse := by
      rw [reconcile_athValue, if_pos hath]
    have heq := Option.some.inj hr.symm
    rw [heq]
    exact ⟨rfl, hAth, by rw [hAth], ne_of_lt hath⟩

def c9info : AssetInfo := ⟨100, some 1, ((50 : ℚ) : WithTop ℚ), some 1, "manual_initial"⟩

def c9klines : List Kline := [⟨2, 1, 99, 110, 90⟩, ⟨1, 1, 95, 100, 90⟩]

def c9result : AssetRunResult :=
  { chart := mainChartPoints c9klines c9info.athValue
    newInfo := reconcile c9info (windowMax c9klines.reverse) (windowMin c9klines.reverse) 555
    current_price := 99
    drawdown_percentage_current :=
      round2 (calculate_drawdown_percentage 99
        (reconcile c9info (windowMax c9klines.reverse) (windowMin c9klines.reverse)
          555).athValue) }

/-- Witness for C9: persisted ATH 100, window with a new high 110 and
current close 99 — the chart points divide by the stale 100 while the
headline drawdown divides by the fresh 110 (values 1% versus 10%). -/
theorem stale_chart_fresh_headline_witness :
    processAsset c9info c9klines 555 = some c9result ∧
    windowMax c9klines.reverse = 110 ∧
    (c9result.chart = c9klines.reverse.map (fun k =>
      ({ ts := k.ts,
         value := round2 (calculate_drawdown_percentage k.close c9info.athValue) } :
        ChartPoint)) ∧
      c9result.newInfo.athValue = windowMax c9klines.reverse ∧
      c9result.drawdown_percentage_current =
        round2 (calculate_drawdown_percentage c9result.current_price
          (windowMax c9klines.reverse)) ∧
      c9info.athValue ≠ windowMax c9klines.reverse) ∧
    round2 (calculate_drawdown_percentage 99 100) = 1 ∧
    round2 (calculate_drawdown_percentage 99 110) = 10 := by
  have hdd1 : calculate_drawdown_percentage 99 100 = 1 := by
    rw [calculate_drawdown_percentage, if_neg (by norm_num)]
    norm_num
  have hdd10 : calculate_drawdown_percentage 99 110 = 10 := by
    rw [calculate_drawdown_percentage, if_neg (by norm_num)]
    norm_num
  refine ⟨rfl, by decide,
    stale_chart_fresh_headline c9info c9klines 555 c9result rfl (by decide), ?_, ?_⟩
  · rw [hdd1, round2, pyRound_eq]
    norm_num
  · rw [hdd10, round2, pyRound_eq]
    norm_num

end Haru
